import Mathlib

/-!
Verification of the Twitch social-network notebook (main.ipynb).

The notebook builds an undirected simple graph from an edge table
(large_twitch_edges.csv), attaches per-node attribute records from a
feature table (large_twitch_features.csv), removes self-loop edges,
extracts an independent induced-subgraph copy of the nodes whose
language attribute equals a chosen value, and computes min/max/mean
node degree over that subgraph.

The shallow embedding below models the tables as lists of rows, the
nx.Graph value as a structure holding a node set, a set of canonically
ordered edge pairs, and a node-attribute map, and each library call of
the notebook as a Lean function with the semantics networkx documents
for it.
-/

namespace TwitchNetwork

/-- Per-node attribute record of large_twitch_features.csv: columns
views, mature, life_time, created_at, updated_at, dead_account,
language, affiliate, keyed by the numeric_id index column. -/
structure NodeRecord where
  views : Nat
  mature : Bool
  life_time : Nat
  created_at : String
  updated_at : String
  dead_account : Bool
  language : String
  affiliate : Bool
  deriving DecidableEq, Repr

/-- The nx.Graph value: an undirected simple graph. Edges are stored
as canonically ordered pairs (first component at most the second), so
one stored pair per unordered edge; attrs is the per-node attribute
dictionary (none when the node has no attribute record). -/
structure Graph where
  nodes : Finset Nat
  edges : Finset (Nat × Nat)
  attrs : Nat → Option NodeRecord

/-- Canonical orientation of an unordered pair. -/
def canon (a b : Nat) : Nat × Nat := if a ≤ b then (a, b) else (b, a)

/-- The empty nx.Graph. -/
def emptyGraph : Graph := { nodes := ∅, edges := ∅, attrs := fun _ => none }

/-- One G.add_edge(a, b) call: inserts both endpoints as nodes and the
unordered edge; attribute dictionaries are untouched. -/
def add_edge (g : Graph) (a b : Nat) : Graph :=
  { g with nodes := insert a (insert b g.nodes)
           edges := insert (canon a b) g.edges }

/-- Embedding of OG = nx.from_pandas_edgelist(edgelist, source, target,
create_using=nx.Graph()): one add_edge call per row of the edge table. -/
def from_pandas_edgelist (edgelist : List (Nat × Nat)) : Graph :=
  edgelist.foldl (fun g r => add_edge g r.1 r.2) emptyGraph

/-- One step of nx.set_node_attributes: G.nodes[n].update(d) guarded by
the KeyError pass branch, so a key absent from the graph is skipped. -/
def setNodeAttr (g : Graph) (n : Nat) (r : NodeRecord) : Graph :=
  if n ∈ g.nodes then { g with attrs := Function.update g.attrs n (some r) } else g

/-- Embedding of nx.set_node_attributes(OG, node_features.to_dict(orient='index')):
for each feature row, update the attribute dictionary of the node with
that id when it exists, and silently skip it otherwise. -/
def set_node_attributes (g : Graph) (node_features : List (Nat × NodeRecord)) : Graph :=
  node_features.foldl (fun g p => setNodeAttr g p.1 p.2) g

/-- Embedding of OG.remove_edges_from(nx.selfloop_edges(OG)): drop every
edge whose endpoints coincide; nodes and attributes are untouched. -/
def remove_selfloop_edges (g : Graph) : Graph :=
  { g with edges := g.edges.filter (fun e => e.1 ≠ e.2) }

/-- The Graph Builder pipeline of the notebook: build the graph from the
edge table, attach the feature rows, then remove self-loops. -/
def buildGraph (edgelist : List (Nat × Nat))
    (node_features : List (Nat × NodeRecord)) : Graph :=
  remove_selfloop_edges (set_node_attributes (from_pandas_edgelist edgelist) node_features)

/-- Embedding of attr.get('language') == v: a node with no attribute
record compares unequal to every target value. -/
def langEq (o : Option NodeRecord) (v : String) : Bool :=
  match o with
  | some r => r.language == v
  | none => false

/-- Embedding of nodes_with_fr = [n for n, attr in OG.nodes(data=True)
if attr.get('language') == v], generalized over the target value. -/
def nodesWithLanguage (g : Graph) (v : String) : Finset Nat :=
  g.nodes.filter (fun n => langEq (g.attrs n) v = true)

/-- Embedding of G = OG.subgraph(nodes_with_fr).copy(): the induced
subgraph on the filtered node set, materialized as an independent
graph value (nodes, edges with both endpoints in the set, and the
attribute dictionaries of the kept nodes). -/
def subgraph_copy (g : Graph) (v : String) : Graph :=
  { nodes := nodesWithLanguage g v
    edges := g.edges.filter
      (fun e => e.1 ∈ nodesWithLanguage g v ∧ e.2 ∈ nodesWithLanguage g v)
    attrs := fun n => if n ∈ nodesWithLanguage g v then g.attrs n else none }

/-- Degree of a node as G.degree reports it: each incident edge counts
once per endpoint slot, so a self-loop contributes two. -/
def degree (g : Graph) (n : Nat) : Nat :=
  ∑ e ∈ g.edges, ((if e.1 = n then 1 else 0) + (if e.2 = n then 1 else 0))

/-- Embedding of the summary-statistics cell: degrees = [d for _, d in
G.degree()], then min(degrees), max(degrees), sum(degrees)/len(degrees).
On an empty graph min/max of an empty sequence and the division by zero
have no result, which the error branch none models. -/
def degreeStats (g : Graph) : Option (Nat × Nat × ℚ) :=
  if h : g.nodes.Nonempty then
    some ((g.nodes.image (degree g)).min' (h.image (degree g)),
          (g.nodes.image (degree g)).max' (h.image (degree g)),
          ((∑ n ∈ g.nodes, degree g n : Nat) : ℚ) / (g.nodes.card : ℚ))
  else none

/-- The distinct node ids appearing in the edge table. -/
def edgeTableIds (edgelist : List (Nat × Nat)) : Finset Nat :=
  (edgelist.map Prod.fst).toFinset ∪ (edgelist.map Prod.snd).toFinset

/-- The distinct node ids appearing across the edge table and the
feature table, as the spec counts them. -/
def allTableIds (edgelist : List (Nat × Nat))
    (node_features : List (Nat × NodeRecord)) : Finset Nat :=
  edgeTableIds edgelist ∪ (node_features.map Prod.fst).toFinset

/-- The distinct unordered pairs occurring as rows of the edge table,
as unordered pairs of the Sym2 quotient. -/
def distinctPairs (edgelist : List (Nat × Nat)) : Finset (Sym2 Nat) :=
  (edgelist.map (fun r => Sym2.mk r)).toFinset

/-- Number of distinct unordered non-reflexive pairs in the edge table. -/
def distinctNonLoopPairCount (edgelist : List (Nat × Nat)) : Nat :=
  ((distinctPairs edgelist).filter (fun p => ¬ p.IsDiag)).card

/-- Every edge endpoint references an existing node of the graph. -/
def EndpointsClosed (g : Graph) : Prop :=
  ∀ e ∈ g.edges, e.1 ∈ g.nodes ∧ e.2 ∈ g.nodes

instance (g : Graph) : Decidable (EndpointsClosed g) := by
  unfold EndpointsClosed; infer_instance

/-- The notebook's OG graph as a function of its two input tables. -/
def pipelineGraph (edgelist : List (Nat × Nat))
    (node_features : List (Nat × NodeRecord)) : Graph :=
  buildGraph edgelist node_features

/-- The notebook's G subgraph as a function of the input tables and the
language filter value. -/
def pipelineSubgraph (edgelist : List (Nat × Nat))
    (node_features : List (Nat × NodeRecord)) (v : String) : Graph :=
  subgraph_copy (buildGraph edgelist node_features) v

/-- Graph mutations available on an nx.Graph after the pipeline runs:
adding or removing nodes or edges and changing node attributes. -/
inductive Mutation where
  | add_node (n : Nat)
  | remove_node (n : Nat)
  | insert_edge (a b : Nat)
  | remove_edge (a b : Nat)
  | set_attr (n : Nat) (r : NodeRecord)
  deriving DecidableEq, Repr

/-- Semantics of one mutation on a graph value, per the networkx
operations: add_node keeps existing attributes and gives a fresh node an
empty dictionary; remove_node drops the node, its incident edges and its
attributes; add_edge inserts endpoints and the unordered edge;
remove_edge erases the unordered edge; setting an attribute updates the
dictionary of an existing node. -/
def applyMutation (g : Graph) : Mutation → Graph
  | .add_node n =>
      { g with nodes := insert n g.nodes
               attrs := fun m => if m = n ∧ n ∉ g.nodes then none else g.attrs m }
  | .remove_node n =>
      if n ∈ g.nodes then
        { nodes := g.nodes.erase n
          edges := g.edges.filter (fun e => e.1 ≠ n ∧ e.2 ≠ n)
          attrs := Function.update g.attrs n none }
      else g
  | .insert_edge a b => add_edge g a b
  | .remove_edge a b => { g with edges := g.edges.erase (canon a b) }
  | .set_attr n r => setNodeAttr g n r

/-- A heap of named graph objects, to track which graph a mutation hits. -/
def Store : Type := String → Graph

/-- Rebind one name of the heap to a new graph value. -/
def updateStore (s : Store) (k : String) (g : Graph) : Store :=
  fun k2 => if k2 = k then g else s k2

/-- Embedding of G = OG.subgraph(nodes_with_fr).copy() at heap level:
read the parent graph at src, materialize the filtered copy, and bind it
to the fresh name dst. -/
def subgraphCopyInto (s : Store) (src dst : String) (v : String) : Store :=
  updateStore s dst (subgraph_copy (s src) v)

/-- Apply one mutation to the graph bound to name k. -/
def mutateAt (s : Store) (k : String) (m : Mutation) : Store :=
  updateStore s k (applyMutation (s k) m)

/-- Apply a sequence of mutations to the graph bound to name k. -/
def mutateSeq (s : Store) (k : String) (ms : List Mutation) : Store :=
  ms.foldl (fun s m => mutateAt s k m) s

/-- Feature row of the spec's example scenario for id 1 (language FR). -/
def recFR1 : NodeRecord :=
  { views := 7879, mature := true, life_time := 969, created_at := "2016-02-16",
    updated_at := "2018-10-12", dead_account := false, language := "FR",
    affiliate := true }

/-- Feature row of the spec's example scenario for id 2 (language FR). -/
def recFR2 : NodeRecord :=
  { views := 500, mature := false, life_time := 2699, created_at := "2011-05-19",
    updated_at := "2018-10-08", dead_account := false, language := "FR",
    affiliate := false }

/-- Feature row of the spec's example scenario for id 3 (language EN). -/
def recEN3 : NodeRecord :=
  { views := 386, mature := false, life_time := 1344, created_at := "2015-01-26",
    updated_at := "2018-10-01", dead_account := false, language := "EN",
    affiliate := false }

/-- Edge rows of the spec's example scenario. -/
def exampleEdges : List (Nat × Nat) := [(1, 2), (1, 3), (2, 3), (2, 2)]

/-- Feature rows of the spec's example scenario. -/
def exampleFeatures : List (Nat × NodeRecord) := [(1, recFR1), (2, recFR2), (3, recEN3)]

/-- A heap with no graph built yet, for exercising the copy guarantee. -/
def store0 : Store := fun _ => emptyGraph

/-! Definitional unfolding lemmas for the pipeline stages. -/

theorem remove_selfloop_nodes (g : Graph) : (remove_selfloop_edges g).nodes = g.nodes := rfl

theorem remove_selfloop_attrs (g : Graph) : (remove_selfloop_edges g).attrs = g.attrs := rfl

theorem remove_selfloop_edges_def (g : Graph) :
    (remove_selfloop_edges g).edges = g.edges.filter (fun e => e.1 ≠ e.2) := rfl

theorem subgraph_copy_nodes (g : Graph) (v : String) :
    (subgraph_copy g v).nodes = nodesWithLanguage g v := rfl

theorem subgraph_copy_edges (g : Graph) (v : String) :
    (subgraph_copy g v).edges = g.edges.filter
      (fun e => e.1 ∈ nodesWithLanguage g v ∧ e.2 ∈ nodesWithLanguage g v) := rfl

theorem subgraph_copy_attrs (g : Graph) (v : String) (n : Nat) :
    (subgraph_copy g v).attrs n
      = if n ∈ nodesWithLanguage g v then g.attrs n else none := rfl

theorem mem_nodesWithLanguage {g : Graph} {v : String} {n : Nat} :
    n ∈ nodesWithLanguage g v ↔ n ∈ g.nodes ∧ langEq (g.attrs n) v = true :=
  Finset.mem_filter

theorem Graph.eq_of_fields {g1 g2 : Graph} (hn : g1.nodes = g2.nodes)
    (he : g1.edges = g2.edges) (ha : g1.attrs = g2.attrs) : g1 = g2 := by
  cases g1; cases g2; simp_all

/-! Characterization of the graph produced by from_pandas_edgelist. -/

theorem foldl_add_edge_nodes (l : List (Nat × Nat)) (g : Graph) :
    (l.foldl (fun h r => add_edge h r.1 r.2) g).nodes
      = g.nodes ∪ (l.map Prod.fst).toFinset ∪ (l.map Prod.snd).toFinset := by
  induction l generalizing g with
  | nil => simp
  | cons r rs ih =>
      rw [List.foldl_cons, ih]
      ext x
      simp [add_edge]
      tauto

theorem foldl_add_edge_edges (l : List (Nat × Nat)) (g : Graph) :
    (l.foldl (fun h r => add_edge h r.1 r.2) g).edges
      = g.edges ∪ (l.map (fun r => canon r.1 r.2)).toFinset := by
  induction l generalizing g with
  | nil => simp
  | cons r rs ih =>
      rw [List.foldl_cons, ih]
      ext x
      simp [add_edge]

theorem foldl_add_edge_attrs (l : List (Nat × Nat)) (g : Graph) :
    (l.foldl (fun h r => add_edge h r.1 r.2) g).attrs = g.attrs := by
  induction l generalizing g with
  | nil => rfl
  | cons r rs ih => rw [List.foldl_cons, ih]; rfl

theorem from_pandas_edgelist_nodes (l : List (Nat × Nat)) :
    (from_pandas_edgelist l).nodes = edgeTableIds l := by
  rw [from_pandas_edgelist, foldl_add_edge_nodes]
  simp [emptyGraph, edgeTableIds]

theorem from_pandas_edgelist_edges (l : List (Nat × Nat)) :
    (from_pandas_edgelist l).edges = (l.map (fun r => canon r.1 r.2)).toFinset := by
  rw [from_pandas_edgelist, foldl_add_edge_edges]
  simp [emptyGraph]

/-! Frame lemmas for set_node_attributes. -/

theorem setNodeAttr_nodes (g : Graph) (n : Nat) (r : NodeRecord) :
    (setNodeAttr g n r).nodes = g.nodes := by
  unfold setNodeAttr; split <;> rfl

theorem setNodeAttr_edges (g : Graph) (n : Nat) (r : NodeRecord) :
    (setNodeAttr g n r).edges = g.edges := by
  unfold setNodeAttr; split <;> rfl

theorem setNodeAttr_attrs_of_notmem (g : Graph) (n : Nat) (r : NodeRecord) (m : Nat)
    (hm : m ∉ g.nodes) : (setNodeAttr g n r).attrs m = g.attrs m := by
  unfold setNodeAttr
  split
  · rename_i hn
    have hmn : m ≠ n := fun he => hm (he ▸ hn)
    simp [Function.update_apply, hmn]
  · rfl

theorem foldl_setNodeAttr_nodes (l : List (Nat × NodeRecord)) (g : Graph) :
    (l.foldl (fun g p => setNodeAttr g p.1 p.2) g).nodes = g.nodes := by
  induction l generalizing g with
  | nil => rfl
  | cons p ps ih => rw [List.foldl_cons, ih, setNodeAttr_nodes]

theorem foldl_setNodeAttr_edges (l : List (Nat × NodeRecord)) (g : Graph) :
    (l.foldl (fun g p => setNodeAttr g p.1 p.2) g).edges = g.edges := by
  induction l generalizing g with
  | nil => rfl
  | cons p ps ih => rw [List.foldl_cons, ih, setNodeAttr_edges]

theorem foldl_setNodeAttr_attrs_of_notmem (l : List (Nat × NodeRecord)) (g : Graph)
    (m : Nat) (hm : m ∉ g.nodes) :
    (l.foldl (fun g p => setNodeAttr g p.1 p.2) g).attrs m = g.attrs m := by
  induction l generalizing g with
  | nil => rfl
  | cons p ps ih =>
      have h2 : m ∉ (setNodeAttr g p.1 p.2).nodes := by
        rw [setNodeAttr_nodes]; exact hm
      rw [List.foldl_cons, ih _ h2, setNodeAttr_attrs_of_notmem _ _ _ _ hm]

theorem set_node_attributes_nodes (g : Graph) (l : List (Nat × NodeRecord)) :
    (set_node_attributes g l).nodes = g.nodes :=
  foldl_setNodeAttr_nodes l g

theorem set_node_attributes_edges (g : Graph) (l : List (Nat × NodeRecord)) :
    (set_node_attributes g l).edges = g.edges :=
  foldl_setNodeAttr_edges l g

/-! Characterization of the built graph. -/

theorem buildGraph_nodes (el : List (Nat × Nat)) (nf : List (Nat × NodeRecord)) :
    (buildGraph el nf).nodes = edgeTableIds el := by
  rw [buildGraph, remove_selfloop_nodes, set_node_attributes_nodes,
    from_pandas_edgelist_nodes]

theorem buildGraph_edges (el : List (Nat × Nat)) (nf : List (Nat × NodeRecord)) :
    (buildGraph el nf).edges
      = ((el.map (fun r => canon r.1 r.2)).toFinset).filter (fun e => e.1 ≠ e.2) := by
  rw [buildGraph, remove_selfloop_edges_def, set_node_attributes_edges,
    from_pandas_edgelist_edges]

/-! Structural facts about subgraphs and degrees. -/

theorem subgraph_copy_closed (g : Graph) (v : String) :
    EndpointsClosed (subgraph_copy g v) := by
  intro e he
  rw [subgraph_copy_edges] at he
  rw [subgraph_copy_nodes]
  exact (Finset.mem_filter.mp he).2

theorem degree_sum (g : Graph) (hc : EndpointsClosed g) :
    ∑ n ∈ g.nodes, degree g n = 2 * g.edges.card := by
  simp only [degree]
  rw [Finset.sum_comm]
  have h1 : ∀ e ∈ g.edges,
      (∑ n ∈ g.nodes, ((if e.1 = n then 1 else 0) + (if e.2 = n then 1 else 0))) = 2 := by
    intro e he
    rw [Finset.sum_add_distrib, Finset.sum_ite_eq, Finset.sum_ite_eq,
      if_pos (hc e he).1, if_pos (hc e he).2]
  rw [Finset.sum_congr rfl h1, Finset.sum_const, smul_eq_mul, mul_comm]

/-! Heap-level frame lemmas. -/

theorem updateStore_ne (s : Store) (k : String) (g : Graph) (k2 : String)
    (h : k2 ≠ k) : updateStore s k g k2 = s k2 := if_neg h

theorem mutateSeq_ne (ms : List Mutation) (s : Store) (k k2 : String)
    (h : k2 ≠ k) : mutateSeq s k ms k2 = s k2 := by
  induction ms generalizing s with
  | nil => rfl
  | cons m rest ih =>
      show mutateSeq (mutateAt s k m) k rest k2 = s k2
      rw [ih]
      exact updateStore_ne _ _ _ _ h

/-! Unordered-pair bookkeeping for the edge-count claim. -/

theorem canon_fst_le_snd (a b : Nat) : (canon a b).1 ≤ (canon a b).2 := by
  unfold canon
  split
  · rename_i h; simpa using h
  · rename_i h; simpa using Nat.le_of_not_le h

theorem sym2_canon (a b : Nat) : Sym2.mk (canon a b) = Sym2.mk (a, b) := by
  unfold canon
  split
  · rfl
  · exact Sym2.eq_swap

theorem list_toFinset_map {α β : Type} [DecidableEq α] [DecidableEq β]
    (l : List α) (f : α → β) : (l.map f).toFinset = l.toFinset.image f := by
  ext x; simp

theorem canon_pair_inj {p q : Nat × Nat} (hp : p.1 ≤ p.2) (hq : q.1 ≤ q.2)
    (h : Sym2.mk p = Sym2.mk q) : p = q := by
  obtain ⟨p1, p2⟩ := p
  obtain ⟨q1, q2⟩ := q
  simp only at hp hq
  rcases Sym2.eq_iff.mp h with ⟨h1, h2⟩ | ⟨h1, h2⟩
  · simp [h1, h2]
  · subst h1
    subst h2
    have he : p1 = p2 := le_antisymm hp hq
    simp [he]

theorem mem_canon_le {el : List (Nat × Nat)} {p : Nat × Nat}
    (hp : p ∈ (el.map (fun r => canon r.1 r.2)).toFinset) : p.1 ≤ p.2 := by
  rw [List.mem_toFinset] at hp
  obtain ⟨r, _, hr⟩ := List.mem_map.mp hp
  rw [← hr]
  exact canon_fst_le_snd r.1 r.2

section Claims

/-- C1 counterexample: the claim says the node count equals the number of
distinct ids across BOTH tables, but a feature row whose id (here 3) does
not occur in the edge table adds no node, so on edge table [(1,2)] and a
feature table for id 3 the graph has 2 nodes while the tables hold 3
distinct ids. -/
theorem C1_counterexample :
    ¬ ((buildGraph [(1, 2)] [(3, recEN3)]).nodes.card
        = (allTableIds [(1, 2)] [(3, recEN3)]).card) := by decide

/-- C1 (amended): after the Graph Builder runs, the node count equals the
number of distinct ids appearing in the edge table; ids that appear only
in the feature table contribute no node, for every pair of input tables. -/
theorem C1_node_count (edgelist : List (Nat × Nat))
    (node_features : List (Nat × NodeRecord)) :
    (buildGraph edgelist node_features).nodes.card = (edgeTableIds edgelist).card := by
  rw [buildGraph_nodes]

/-- C2: after the Graph Builder runs and self-loops are removed, the edge
count equals the number of distinct unordered non-reflexive pairs of the
edge table, for every input edge table: duplicate rows and reversed rows
collapse, reflexive pairs contribute nothing. -/
theorem C2_edge_count (edgelist : List (Nat × Nat))
    (node_features : List (Nat × NodeRecord)) :
    (buildGraph edgelist node_features).edges.card = distinctNonLoopPairCount edgelist := by
  rw [buildGraph_edges, distinctNonLoopPairCount, distinctPairs]
  have hT : ((edgelist.map (fun r => Sym2.mk r)).toFinset : Finset (Sym2 Nat))
      = ((edgelist.map (fun r => canon r.1 r.2)).toFinset).image (fun p => Sym2.mk p) := by
    rw [← list_toFinset_map, List.map_map]
    have hfun : ((fun p : Nat × Nat => Sym2.mk p) ∘ fun r : Nat × Nat => canon r.1 r.2)
        = fun r : Nat × Nat => Sym2.mk r := by
      funext r
      exact sym2_canon r.1 r.2
    rw [hfun]
  rw [hT, Finset.filter_image]
  rw [Finset.card_image_of_injOn ?inj]
  case inj =>
    intro p hp q hq h
    have hp2 := mem_canon_le (Finset.mem_coe.mp (Finset.mem_of_mem_filter p hp))
    have hq2 := mem_canon_le (Finset.mem_coe.mp (Finset.mem_of_mem_filter q hq))
    exact canon_pair_inj hp2 hq2 h
  apply congrArg
  apply Finset.filter_congr
  intro e he
  simp [Sym2.isDiag_iff_proj_eq]

/-- C3 counterexample: the spec calls the subgraph a strict node/edge
subset of the parent, but when every node of the parent carries the
target language the filter returns the whole graph, so neither inclusion
is strict: on edge table [(1,2)] with both nodes tagged FR, the FR
subgraph has the same node set and edge set as its parent. -/
theorem C3_counterexample :
    ¬ ((subgraph_copy (buildGraph [(1, 2)] [(1, recFR1), (2, recFR2)]) "FR").nodes
          ⊂ (buildGraph [(1, 2)] [(1, recFR1), (2, recFR2)]).nodes
        ∨ (subgraph_copy (buildGraph [(1, 2)] [(1, recFR1), (2, recFR2)]) "FR").edges
          ⊂ (buildGraph [(1, 2)] [(1, recFR1), (2, recFR2)]).edges) := by decide

/-- C3 (amended): for every graph and target value, the Subgraph Filter
keeps exactly the parent nodes whose language attribute equals the
target, its node and edge sets are subsets (not necessarily strict) of
the parent's, and every output edge has both endpoints in the filtered
node set. -/
theorem C3_subgraph_filter (g : Graph) (v : String) :
    (subgraph_copy g v).nodes = g.nodes.filter (fun n => langEq (g.attrs n) v = true)
      ∧ (subgraph_copy g v).nodes ⊆ g.nodes
      ∧ (subgraph_copy g v).edges ⊆ g.edges
      ∧ ∀ e ∈ (subgraph_copy g v).edges,
          e.1 ∈ (subgraph_copy g v).nodes ∧ e.2 ∈ (subgraph_copy g v).nodes := by
  refine ⟨rfl, ?_, ?_, subgraph_copy_closed g v⟩
  · rw [subgraph_copy_nodes, nodesWithLanguage]
    exact Finset.filter_subset _ _
  · rw [subgraph_copy_edges]
    exact Finset.filter_subset _ _

/-- C3 witness: on the example pipeline the FR subgraph edge (1,2) has
both endpoints among the filtered nodes. -/
theorem C3_witness :
    1 ∈ (pipelineSubgraph exampleEdges exampleFeatures "FR").nodes
      ∧ 2 ∈ (pipelineSubgraph exampleEdges exampleFeatures "FR").nodes :=
  (C3_subgraph_filter (buildGraph exampleEdges exampleFeatures) "FR").2.2.2
    (1, 2) (by decide)

/-- C4: the Subgraph Filter is idempotent: filtering its own output again
by the same language predicate returns an identical graph, with the same
node set, edge set, and node attributes. -/
theorem C4_idempotent (g : Graph) (v : String) :
    subgraph_copy (subgraph_copy g v) v = subgraph_copy g v := by
  have hnodes : nodesWithLanguage (subgraph_copy g v) v = nodesWithLanguage g v := by
    ext n
    constructor
    · intro hn
      have h1 := (mem_nodesWithLanguage.mp hn).1
      rw [subgraph_copy_nodes] at h1
      exact h1
    · intro hn
      refine mem_nodesWithLanguage.mpr ⟨?_, ?_⟩
      · rw [subgraph_copy_nodes]; exact hn
      · rw [subgraph_copy_attrs, if_pos hn]
        exact (mem_nodesWithLanguage.mp hn).2
  refine Graph.eq_of_fields ?_ ?_ ?_
  · rw [subgraph_copy_nodes, hnodes, subgraph_copy_nodes]
  · rw [subgraph_copy_edges (subgraph_copy g v), hnodes]
    refine Finset.filter_eq_self.mpr ?_
    intro e he
    rw [subgraph_copy_edges] at he
    exact (Finset.mem_filter.mp he).2
  · funext n
    rw [subgraph_copy_attrs (subgraph_copy g v), hnodes]
    by_cases hn : n ∈ nodesWithLanguage g v
    · rw [if_pos hn]
    · rw [if_neg hn, subgraph_copy_attrs, if_neg hn]

/-- C5: for every subgraph the pipeline produces that has at least one
node, the summary statistics exist and satisfy min degree at most mean
degree at most max degree, with the mean equal to twice the edge count
divided by the node count. -/
theorem C5_degree_stats (edgelist : List (Nat × Nat))
    (node_features : List (Nat × NodeRecord)) (v : String)
    (h : (pipelineSubgraph edgelist node_features v).nodes.Nonempty) :
    ∃ mn mx avg,
      degreeStats (pipelineSubgraph edgelist node_features v) = some (mn, mx, avg)
      ∧ (mn : ℚ) ≤ avg ∧ avg ≤ (mx : ℚ)
      ∧ avg = 2 * ((pipelineSubgraph edgelist node_features v).edges.card : ℚ)
          / ((pipelineSubgraph edgelist node_features v).nodes.card : ℚ) := by
  set G := pipelineSubgraph edgelist node_features v with hG
  have hc : EndpointsClosed G := subgraph_copy_closed _ _
  have hcard : 0 < (G.nodes.card : ℚ) := by
    exact_mod_cast Finset.card_pos.mpr h
  refine ⟨(G.nodes.image (degree G)).min' (h.image (degree G)),
          (G.nodes.image (degree G)).max' (h.image (degree G)),
          ((∑ n ∈ G.nodes, degree G n : Nat) : ℚ) / (G.nodes.card : ℚ),
          ?_, ?_, ?_, ?_⟩
  · rw [degreeStats, dif_pos h]
  · rw [le_div_iff₀ hcard]
    have h1 : G.nodes.card * ((G.nodes.image (degree G)).min' (h.image (degree G)))
        ≤ ∑ n ∈ G.nodes, degree G n := by
      have h0 := Finset.card_nsmul_le_sum G.nodes (degree G)
        ((G.nodes.image (degree G)).min' (h.image (degree G)))
        (fun n hn => Finset.min'_le _ _ (Finset.mem_image_of_mem (degree G) hn))
      simpa [smul_eq_mul] using h0
    have h2 : (((G.nodes.image (degree G)).min' (h.image (degree G)) : ℚ)) * (G.nodes.card : ℚ)
        = ((G.nodes.card * ((G.nodes.image (degree G)).min' (h.image (degree G))) : Nat) : ℚ) := by
      push_cast
      ring
    rw [h2]
    exact_mod_cast h1
  · rw [div_le_iff₀ hcard]
    have h1 : ∑ n ∈ G.nodes, degree G n
        ≤ G.nodes.card * ((G.nodes.image (degree G)).max' (h.image (degree G))) := by
      have h0 := Finset.sum_le_card_nsmul G.nodes (degree G)
        ((G.nodes.image (degree G)).max' (h.image (degree G)))
        (fun n hn => Finset.le_max' _ _ (Finset.mem_image_of_mem (degree G) hn))
      simpa [smul_eq_mul] using h0
    have h2 : (((G.nodes.image (degree G)).max' (h.image (degree G)) : ℚ)) * (G.nodes.card : ℚ)
        = ((G.nodes.card * ((G.nodes.image (degree G)).max' (h.image (degree G))) : Nat) : ℚ) := by
      push_cast
      ring
    rw [h2]
    exact_mod_cast h1
  · rw [degree_sum G hc]
    push_cast
    ring

/-- C5 witness: the example pipeline subgraph is nonempty, so its
statistics triple exists and satisfies the stated ordering and mean
formula. -/
theorem C5_witness :
    ∃ mn mx avg,
      degreeStats (pipelineSubgraph exampleEdges exampleFeatures "FR") = some (mn, mx, avg)
      ∧ (mn : ℚ) ≤ avg ∧ avg ≤ (mx : ℚ)
      ∧ avg = 2 * ((pipelineSubgraph exampleEdges exampleFeatures "FR").edges.card : ℚ)
          / ((pipelineSubgraph exampleEdges exampleFeatures "FR").nodes.card : ℚ) :=
  C5_degree_stats exampleEdges exampleFeatures "FR" (by decide)

/-- C6: on the concrete example input (edge rows (1,2), (1,3), (2,3),
(2,2); features FR for ids 1 and 2, EN for id 3) the pipeline yields a
graph with 3 nodes and 3 edges after self-loop removal, an FR subgraph
with node set containing exactly 1 and 2 and one edge, and degree statistics
min 1, max 1, mean 1. -/
theorem C6_example_scenario :
    (pipelineGraph exampleEdges exampleFeatures).nodes.card = 3
    ∧ (pipelineGraph exampleEdges exampleFeatures).edges.card = 3
    ∧ (pipelineSubgraph exampleEdges exampleFeatures "FR").nodes = ({1, 2} : Finset Nat)
    ∧ (pipelineSubgraph exampleEdges exampleFeatures "FR").edges.card = 1
    ∧ degreeStats (pipelineSubgraph exampleEdges exampleFeatures "FR")
        = some (1, 1, (1 : ℚ)) := by
  refine ⟨by decide, by decide, by decide, by decide, ?_⟩
  have h : (pipelineSubgraph exampleEdges exampleFeatures "FR").nodes.Nonempty := by decide
  simp only [degreeStats, dif_pos h]
  have himg : (pipelineSubgraph exampleEdges exampleFeatures "FR").nodes.image
      (degree (pipelineSubgraph exampleEdges exampleFeatures "FR")) = {1} := by decide
  have hsum : (∑ n ∈ (pipelineSubgraph exampleEdges exampleFeatures "FR").nodes,
      degree (pipelineSubgraph exampleEdges exampleFeatures "FR") n) = 2 := by decide
  have hcard : (pipelineSubgraph exampleEdges exampleFeatures "FR").nodes.card = 2 := by decide
  simp only [himg, Finset.min'_singleton, Finset.max'_singleton, hsum, hcard]
  norm_num

/-- C7: after self-loop removal the built graph holds no edge whose two
endpoints coincide, for every pair of input tables, including edge
tables that do contain reflexive rows. -/
theorem C7_no_selfloop (edgelist : List (Nat × Nat))
    (node_features : List (Nat × NodeRecord)) (e : Nat × Nat)
    (he : e ∈ (buildGraph edgelist node_features).edges) : e.1 ≠ e.2 := by
  rw [buildGraph_edges] at he
  exact (Finset.mem_filter.mp he).2

/-- C7 witness: on an edge table holding the reflexive row (5,5) and the
row (1,2), the surviving edge (1,2) has distinct endpoints. -/
theorem C7_witness : ((1, 2) : Nat × Nat).1 ≠ ((1, 2) : Nat × Nat).2 :=
  C7_no_selfloop [(5, 5), (1, 2)] [] (1, 2) (by decide)

/-- C8: the Subgraph Filter's output is an independent copy: binding the
filtered copy to a fresh heap name and then applying any sequence of
mutations (adding or removing nodes or edges, changing attributes) to
that name leaves the parent graph bound to the source name unchanged. -/
theorem C8_independent_copy (s : Store) (src dst v : String) (ms : List Mutation)
    (h : src ≠ dst) :
    mutateSeq (subgraphCopyInto s src dst v) dst ms src = s src := by
  rw [mutateSeq_ne ms _ dst src h]
  exact updateStore_ne _ _ _ _ h

/-- C8 witness: after copying the FR subgraph of the graph named OG to
the name G and mutating G, the graph named OG is untouched. -/
theorem C8_witness :
    mutateSeq (subgraphCopyInto store0 "OG" "G" "FR") "G"
      [Mutation.add_node 7, Mutation.insert_edge 7 8] "OG" = store0 "OG" :=
  C8_independent_copy store0 "OG" "G" "FR"
    [Mutation.add_node 7, Mutation.insert_edge 7 8] (by decide)

/-- C9: attaching node attributes never changes the node set or the edge
set: a feature row whose id is absent from the graph is silently skipped
and touches nothing, so only the attribute dictionaries of existing
nodes are modified. -/
theorem C9_attach_frame (g : Graph) (node_features : List (Nat × NodeRecord)) :
    (set_node_attributes g node_features).nodes = g.nodes
    ∧ (set_node_attributes g node_features).edges = g.edges
    ∧ ∀ n, n ∉ g.nodes → (set_node_attributes g node_features).attrs n = g.attrs n :=
  ⟨set_node_attributes_nodes g node_features,
   set_node_attributes_edges g node_features,
   fun n hn => foldl_setNodeAttr_attrs_of_notmem node_features g n hn⟩

/-- C9 witness: attaching a feature row for the absent id 3 to the graph
of edge table [(1,2)] changes neither the node set nor the attribute
entry of id 3. -/
theorem C9_witness :
    (set_node_attributes (from_pandas_edgelist [(1, 2)]) [(3, recEN3)]).nodes
        = (from_pandas_edgelist [(1, 2)]).nodes
    ∧ (set_node_attributes (from_pandas_edgelist [(1, 2)]) [(3, recEN3)]).attrs 3
        = (from_pandas_edgelist [(1, 2)]).attrs 3 :=
  ⟨(C9_attach_frame (from_pandas_edgelist [(1, 2)]) [(3, recEN3)]).1,
   (C9_attach_frame (from_pandas_edgelist [(1, 2)]) [(3, recEN3)]).2.2 3 (by decide)⟩

/-- C10: the summary statistics are total exactly on graphs with at
least one node: the error branch is the result on the empty graph, and a
nonempty graph always yields the triple. -/
theorem C10_stats_totality :
    degreeStats emptyGraph = none
    ∧ ∀ g : Graph, ((degreeStats g).isSome = true ↔ g.nodes.Nonempty) := by
  constructor
  · have hne : ¬ (emptyGraph.nodes.Nonempty) := by simp [emptyGraph]
    rw [degreeStats, dif_neg hne]
  · intro g
    by_cases h : g.nodes.Nonempty
    · simp [degreeStats, dif_pos h, h]
    · simp [degreeStats, dif_neg h, h]

end Claims

end TwitchNetwork
